import Mathlib

set_option maxRecDepth 2000

/-!
Shallow embedding of the `mat` package of the xgboost-go repository
(src/mat/mat.go), together with proofs about its readers, conversion
utilities and comparison/metric functions.

Modelling conventions:
* A Go `float64` is modelled by `GoF`: an exact rational for finite values,
  plus the IEEE special values `+Inf`, `-Inf` and `NaN` with Go's comparison
  and arithmetic rules.  Finite arithmetic is exact (no rounding, no overflow
  to infinity); `math.Sqrt` on a nonnegative finite argument is modelled by an
  uninterpreted function parameter `sf : ℚ → ℚ`, while its behaviour on
  negative, infinite and NaN arguments follows the Go documentation.
* Go strings are modelled as `List Char` (`GoStr`).  `strings.TrimSpace` and
  `strings.Split` are reimplemented below with Go's semantics (trimming is
  restricted to ASCII whitespace; `strings.Split` with an empty separator
  explodes the string into single characters).
* `strconv.ParseUint(s, 10, 32)` is modelled by `parseUint32` (decimal digits
  only, value below 2^32).  `strconv.ParseFloat(s, 64)` is modelled by
  `parseFloatQ` on the decimal/exponent forms; the "Inf"/"NaN" spellings and
  hexadecimal floats are outside the model.
* A file is modelled by `GoFile`: the newline-terminated lines (without their
  terminator) plus the unterminated tail after the last newline.  The
  `bufio.Reader.ReadString` loop of each reader is reproduced on the list of
  reads `lines ++ [tail-with-EOF]`; only `io.EOF` read errors are modelled,
  other I/O errors (which both readers propagate after returning an empty
  matrix) are outside the model.
* A Go `map[int]float64` (`SparseVector`) is modelled as an association list
  with map-update insertion.  Go map iteration order is unspecified; the
  association-list order (insertion order) is one determinization of it.
* Each `fmt.Errorf` site is modelled by a dedicated error constructor carrying
  the same data that is interpolated into the Go error message.
-/

namespace XgMat

/-- Model of a Go `float64`: a finite (exact) rational, one of the two
infinities, or NaN. -/
inductive GoF
  | fin (q : ℚ)
  | pinf
  | ninf
  | nan
deriving DecidableEq

namespace GoF

/-- Go float64 subtraction `x - y` on the modelled values. -/
def sub : GoF → GoF → GoF
  | .nan, _ => .nan
  | _, .nan => .nan
  | .fin a, .fin b => .fin (a - b)
  | .fin _, .pinf => .ninf
  | .fin _, .ninf => .pinf
  | .pinf, .fin _ => .pinf
  | .pinf, .pinf => .nan
  | .pinf, .ninf => .pinf
  | .ninf, .fin _ => .ninf
  | .ninf, .pinf => .ninf
  | .ninf, .ninf => .nan

/-- Go float64 addition `x + y` on the modelled values. -/
def add : GoF → GoF → GoF
  | .nan, _ => .nan
  | _, .nan => .nan
  | .fin a, .fin b => .fin (a + b)
  | .fin _, .pinf => .pinf
  | .fin _, .ninf => .ninf
  | .pinf, .fin _ => .pinf
  | .pinf, .pinf => .pinf
  | .pinf, .ninf => .nan
  | .ninf, .fin _ => .ninf
  | .ninf, .ninf => .ninf
  | .ninf, .pinf => .nan

/-- Model of `math.Abs`. -/
def abs : GoF → GoF
  | .fin a => .fin |a|
  | .pinf => .pinf
  | .ninf => .pinf
  | .nan => .nan

/-- Go float64 comparison `x < y`: any comparison involving NaN is false. -/
def lt : GoF → GoF → Bool
  | .nan, _ => false
  | _, .nan => false
  | .fin a, .fin b => decide (a < b)
  | .ninf, .ninf => false
  | .ninf, _ => true
  | .fin _, .pinf => true
  | .fin _, .ninf => false
  | .pinf, _ => false

/-- Go float64 comparison `x > y`. -/
def gt (x y : GoF) : Bool := lt y x

/-- Go float64 comparison `x == y`: NaN is equal to nothing, including
itself. -/
def eqb : GoF → GoF → Bool
  | .fin a, .fin b => decide (a = b)
  | .pinf, .pinf => true
  | .ninf, .ninf => true
  | _, _ => false

/-- Go float64 comparison `x != y` (the negation of `==`, so NaN is unequal
to everything). -/
def ne (x y : GoF) : Bool := !(eqb x y)

/-- Model of `math.Pow(x, 2)`, which on these values agrees with `x * x`. -/
def sq : GoF → GoF
  | .fin a => .fin (a * a)
  | .pinf => .pinf
  | .ninf => .pinf
  | .nan => .nan

/-- Go float64 division `x / y`.  The single rational zero stands for `+0`,
so the IEEE sign-of-zero distinction in `x / ±0` is collapsed to the `+0`
case. -/
def div : GoF → GoF → GoF
  | .nan, _ => .nan
  | _, .nan => .nan
  | .fin a, .fin b =>
      if b = 0 then (if a = 0 then .nan else if 0 < a then .pinf else .ninf)
      else .fin (a / b)
  | .fin _, .pinf => .fin 0
  | .fin _, .ninf => .fin 0
  | .pinf, .fin b => if 0 ≤ b then .pinf else .ninf
  | .ninf, .fin b => if 0 ≤ b then .ninf else .pinf
  | .pinf, .pinf => .nan
  | .pinf, .ninf => .nan
  | .ninf, .pinf => .nan
  | .ninf, .ninf => .nan

/-- Model of `math.Sqrt`; `sf` is the uninterpreted value of the square root
on a nonnegative finite argument.  `Sqrt(+Inf) = +Inf`, `Sqrt(x) = NaN` for
`x < 0`, `Sqrt(NaN) = NaN`. -/
def sqrt (sf : ℚ → ℚ) : GoF → GoF
  | .fin a => if a < 0 then .nan else .fin (sf a)
  | .pinf => .pinf
  | .ninf => .nan
  | .nan => .nan

/-- Model of the Go conversion `float64(n)` for a nonnegative integer `n`
(exact in the model). -/
def ofNat (n : Nat) : GoF := .fin n

/-- True exactly on finite values. -/
def isFinite : GoF → Bool
  | .fin _ => true
  | _ => false

end GoF

/-- Model of a Go string. -/
abbrev GoStr := List Char

/-- ASCII whitespace as recognised by `unicode.IsSpace` (the non-ASCII
whitespace code points are outside the model). -/
def isSpaceGo (c : Char) : Bool :=
  c = ' ' || c = '\t' || c = '\n' || c = '\r' || c = '\x0b' || c = '\x0c'

/-- Model of `strings.TrimSpace`. -/
def trimSpace (s : GoStr) : GoStr :=
  ((s.dropWhile isSpaceGo).reverse.dropWhile isSpaceGo).reverse

/-- Index of the first occurrence of the substring `sep` in `s` (used to model
`strings.Split`); `none` when `sep` does not occur. -/
def findSub (sep : GoStr) : GoStr → Option Nat
  | [] => if sep.isPrefixOf ([] : GoStr) then some 0 else none
  | c :: rest =>
      if sep.isPrefixOf (c :: rest) then some 0
      else (findSub sep rest).map (· + 1)

/-- Worker for `splitGo`; the fuel argument only makes the recursion
structural and is always supplied with at least `s.length`, which suffices
because every recursive step consumes at least one character. -/
def splitAux (sep : GoStr) : GoStr → Nat → List GoStr
  | s, 0 => [s]
  | s, fuel + 1 =>
      match findSub sep s with
      | none => [s]
      | some i => s.take i :: splitAux sep (s.drop (i + sep.length)) fuel

/-- Model of `strings.Split(s, sep)`: with an empty separator the string is
exploded into its characters, otherwise it is cut around every
non-overlapping occurrence of `sep`, leftmost first. -/
def splitGo (sep s : GoStr) : List GoStr :=
  if sep.isEmpty then s.map (fun c => [c]) else splitAux sep s s.length

/-- Value of a nonempty all-digit string, `none` otherwise (shared by the
integer parsers). -/
def parseDigits (s : GoStr) : Option Nat :=
  if !s.isEmpty && s.all Char.isDigit then
    some (s.foldl (fun acc c => 10 * acc + (c.toNat - '0'.toNat)) 0)
  else none

/-- Model of `strconv.ParseUint(s, 10, 32)`: a nonempty string of decimal
digits whose value fits in 32 bits; anything else (including a sign, an
underscore, or a value of 2^32 or more) is an error. -/
def parseUint32 (s : GoStr) : Option Nat :=
  match parseDigits s with
  | none => none
  | some n => if n < 2 ^ 32 then some n else none

/-- Numeric value of a digit string (0 for the empty string). -/
def digitsToQ (s : GoStr) : ℚ :=
  ((s.foldl (fun acc c => 10 * acc + (c.toNat - '0'.toNat)) 0 : Nat) : ℚ)

/-- Model of `strconv.ParseFloat(s, 64)` on the decimal forms
`[+|-]digits[.digits][e|E[+|-]digits]` (at least one mantissa digit), with the
exact rational value.  The "Inf"/"NaN" spellings, hexadecimal floats and
digit-separating underscores are outside the model, as is rounding to 53-bit
precision. -/
def parseFloatQ (s : GoStr) : Option ℚ :=
  let sgn : ℚ := match s with
    | '-' :: _ => -1
    | _ => 1
  let s1 : GoStr := match s with
    | '+' :: r => r
    | '-' :: r => r
    | _ => s
  let ip := s1.takeWhile Char.isDigit
  let r1 := s1.dropWhile Char.isDigit
  let fp : GoStr := match r1 with
    | '.' :: r => r.takeWhile Char.isDigit
    | _ => []
  let r2 : GoStr := match r1 with
    | '.' :: r => r.dropWhile Char.isDigit
    | _ => r1
  if ip.isEmpty && fp.isEmpty then none
  else
    let mant : ℚ := digitsToQ ip + digitsToQ fp / (10 : ℚ) ^ fp.length
    match r2 with
    | [] => some (sgn * mant)
    | e :: r3 =>
        if e = 'e' || e = 'E' then
          let esgn : Int := match r3 with
            | '-' :: _ => -1
            | _ => 1
          let r4 : GoStr := match r3 with
            | '+' :: r => r
            | '-' :: r => r
            | _ => r3
          match parseDigits r4 with
          | some ev => some (sgn * mant * (10 : ℚ) ^ (esgn * (ev : Int)))
          | none => none
        else none

/-- Model of `mat.Vector` (`[]float64`). -/
abbrev Vector := List GoF

/-- Model of `mat.SparseVector` (`map[int]float64`) as an association list in
insertion order; see the header note on Go map iteration order. -/
abbrev SparseVector := List (Nat × GoF)

/-- Model of `mat.SparseMatrix`. -/
structure SparseMatrix where
  Vectors : List SparseVector
deriving DecidableEq

/-- Model of `mat.Matrix` (the `*Vector` indirection of the Go struct is
dropped; rows are owned values). -/
structure Matrix where
  Vectors : List Vector
deriving DecidableEq

/-- Model of the Go map assignment `vec[k] = v`: update the existing entry in
place or append a new one. -/
def svInsert (k : Nat) (v : GoF) : SparseVector → SparseVector
  | [] => [(k, v)]
  | (k', v') :: rest =>
      if k = k' then (k, v) :: rest else (k', v') :: svInsert k v rest

/-- Model of `SparseMatrix.ToFloat64`: for each row, only the stored values
are emitted, in the row's iteration order; absent indices are not
materialised as zeros. -/
def SparseMatrix.ToFloat64 (m : SparseMatrix) : List (List GoF) :=
  m.Vectors.map (fun v => v.map Prod.snd)

/-- Error sites of `ReadLibsvmFileToSparseMatrix`, one constructor per
`fmt.Errorf` call, carrying the interpolated data. -/
inductive LibsvmErr
  | tooFewColumns
  | emptyToken
  | wrongFormat (tok : GoStr)
  | badIndex (s : GoStr)
  | badValue (s : GoStr)
deriving DecidableEq

/-- Error sites of `ReadCSVFileToDenseMatrix`. -/
inductive CSVErr
  | badFloat (tok : GoStr)
  | dimMismatch (row : Nat) (width : Nat)
deriving DecidableEq

/-- Errors of the comparison and metric functions; `wrapRow` models
`errors.Wrap(err, "matrix comparison at index i")`. -/
inductive MErr
  | lenMismatch (n1 n2 : Nat)
  | elemMismatch (i : Nat) (x y : GoF)
  | rowCountMismatch (n1 n2 : Nat)
  | emptyVector
  | wrapRow (i : Nat) (e : MErr)
deriving DecidableEq

/-- Model of an on-disk file: the newline-terminated lines (without the
terminator) followed by the unterminated tail after the last newline (empty
for a file ending in a newline). -/
structure GoFile where
  lines : List GoStr
  tail : GoStr

/-- The sequence of `bufio.Reader.ReadString('\n')` results for a `GoFile`:
each terminated line with a nil read error, then the tail together with
`io.EOF` (the Boolean marks the `io.EOF` read). -/
def fileReads (f : GoFile) : List (GoStr × Bool) :=
  f.lines.map (fun l => (l, false)) ++ [(f.tail, true)]

/-- The `for c := 1; ...` body of `ReadLibsvmFileToSparseMatrix`: each token
must split on ":" into exactly two parts, an index for `ParseUint(_, 10, 32)`
and a value for `ParseFloat`; the pair is stored in the row's map. -/
def parsePairs : List GoStr → SparseVector → Except LibsvmErr SparseVector
  | [], vec => .ok vec
  | t :: rest, vec =>
      if t.isEmpty then .error .emptyToken
      else
        match splitGo [':'] t with
        | [a, b] =>
            match parseUint32 a with
            | none => .error (.badIndex a)
            | some k =>
                match parseFloatQ b with
                | none => .error (.badValue b)
                | some v => parsePairs rest (svInsert k (.fin v) vec)
        | _ => .error (.wrongFormat t)

/-- One line of the libsvm reader: fewer than two space-separated tokens is an
error, the first token (the label) is skipped, the rest are parsed as
index:value pairs. -/
def parseLibsvmTokens (tokens : List GoStr) : Except LibsvmErr SparseVector :=
  if tokens.length < 2 then .error .tooFewColumns
  else parsePairs tokens.tail []

/-- The read loop of `ReadLibsvmFileToSparseMatrix`: a read carrying `io.EOF`
breaks out of the loop before the line content is examined (so an
unterminated final line is discarded); a line that is blank after trimming
also breaks; any parse error aborts with the empty matrix. -/
def readLibsvmReads : List (GoStr × Bool) → List SparseVector →
    SparseMatrix × Option LibsvmErr
  | [], acc => (⟨acc⟩, none)
  | (line, isEof) :: rest, acc =>
      if isEof then (⟨acc⟩, none)
      else
        let l := trimSpace line
        if l.isEmpty then (⟨acc⟩, none)
        else
          match parseLibsvmTokens (splitGo [' '] l) with
          | .error e => (⟨[]⟩, some e)
          | .ok vec => readLibsvmReads rest (acc ++ [vec])

/-- Model of `ReadLibsvmFileToSparseMatrix` (the `os.Open` failure path is
outside the model). -/
def ReadLibsvmFileToSparseMatrix (f : GoFile) : SparseMatrix × Option LibsvmErr :=
  readLibsvmReads (fileReads f) []

/-- The token loop of `ReadCSVFileToDenseMatrix`: an empty field becomes the
default value, any other field must parse as a float. -/
def parseCSVTokens (defaultVal : GoF) : List GoStr → Except CSVErr Vector
  | [] => .ok []
  | t :: rest =>
      if t.isEmpty then
        match parseCSVTokens defaultVal rest with
        | .error e => .error e
        | .ok v => .ok (defaultVal :: v)
      else
        match parseFloatQ t with
        | none => .error (.badFloat t)
        | some q =>
            match parseCSVTokens defaultVal rest with
            | .error e => .error e
            | .ok v => .ok (.fin q :: v)

/-- The read loop of `ReadCSVFileToDenseMatrix`: `io.EOF` is not an abort
condition (the final unterminated line is processed normally); a blank line
breaks; the first row sets `colDim` (initially -1) and every later row must
match it exactly or the read aborts naming the row index and its width. -/
def readCSVReads (delim : GoStr) (defaultVal : GoF) :
    List (GoStr × Bool) → List Vector → Int → Nat → Matrix × Option CSVErr
  | [], acc, _, _ => (⟨acc⟩, none)
  | (line, _) :: rest, acc, colDim, row =>
      let l := trimSpace line
      if l.isEmpty then (⟨acc⟩, none)
      else
        match parseCSVTokens defaultVal (splitGo delim l) with
        | .error e => (⟨[]⟩, some e)
        | .ok vec =>
            if colDim = -1 then
              readCSVReads delim defaultVal rest (acc ++ [vec]) (vec.length : Int) (row + 1)
            else if colDim ≠ (vec.length : Int) then
              (⟨[]⟩, some (.dimMismatch row vec.length))
            else
              readCSVReads delim defaultVal rest (acc ++ [vec]) colDim (row + 1)

/-- Model of `ReadCSVFileToDenseMatrix` (the `os.Open` failure path is outside
the model). -/
def ReadCSVFileToDenseMatrix (f : GoFile) (delim : GoStr) (defaultVal : GoF) :
    Matrix × Option CSVErr :=
  readCSVReads delim defaultVal (fileReads f) [] (-1) 0

/-- The inner `for j` loop of `GetSparseMatrixFromSlice`: entries that compare
`!= 0` are stored at their column index. -/
def sliceRowToSparse : List GoF → Nat → SparseVector → SparseVector
  | [], _, vec => vec
  | x :: rest, j, vec =>
      if GoF.ne x (.fin 0) then sliceRowToSparse rest (j + 1) (svInsert j x vec)
      else sliceRowToSparse rest (j + 1) vec

/-- The outer `for i` loop of `GetSparseMatrixFromSlice`. -/
def gsmLoop : List (List GoF) → List SparseVector → List SparseVector
  | [], acc => acc
  | row :: rest, acc => gsmLoop rest (acc ++ [sliceRowToSparse row 0 []])

/-- Model of `GetSparseMatrixFromSlice`; the `error` component of the Go
return value (always nil) is an `Option String` that is never `some`. -/
def GetSparseMatrixFromSlice (data : List (List GoF)) : SparseMatrix × Option String :=
  (⟨gsmLoop data []⟩, none)

/-- The element loop of `IsEqualVectors`. -/
def isEqVecLoop (threshold : GoF) : Vector → Vector → Nat → Option MErr
  | x :: xs, y :: ys, i =>
      if GoF.gt ((GoF.sub x y).abs) threshold then some (.elemMismatch i x y)
      else isEqVecLoop threshold xs ys (i + 1)
  | _, _, _ => none

/-- Model of `IsEqualVectors` (`none` is a nil error). -/
def IsEqualVectors (v1 v2 : Vector) (threshold : GoF) : Option MErr :=
  if v1.length ≠ v2.length then some (.lenMismatch v1.length v2.length)
  else isEqVecLoop threshold v1 v2 0

/-- The `for idx, i := range *v` loop of `GetVectorMaxIdx`, carrying the
running maximum (initially `-Inf`) and the current best index. -/
def maxIdxLoop : Vector → Nat → GoF → Nat → Nat
  | [], _, _, r => r
  | x :: rest, idx, maxVal, r =>
      if GoF.gt x maxVal then maxIdxLoop rest (idx + 1) x idx
      else maxIdxLoop rest (idx + 1) maxVal r

/-- Model of `GetVectorMaxIdx`: `(-1, error)` on the empty vector, otherwise
the loop result with a nil error. -/
def GetVectorMaxIdx (v : Vector) : Int × Option MErr :=
  if v.length = 0 then (-1, some .emptyVector)
  else ((maxIdxLoop v 0 .ninf 0 : Nat), none)

/-- The `sum += math.Pow(v1[i]-v2[i], 2)` loop of `GetVectorRMSE`. -/
def sumSquares : Vector → Vector → GoF → GoF
  | x :: xs, y :: ys, sum => sumSquares xs ys (GoF.add sum (GoF.sq (GoF.sub x y)))
  | _, _, sum => sum

/-- Model of `GetVectorRMSE`: `sqrt(sum / len)` with a nil error unless the
lengths differ.  `sf` models `math.Sqrt` on nonnegative finite arguments. -/
def GetVectorRMSE (sf : ℚ → ℚ) (v1 v2 : Vector) : GoF × Option MErr :=
  if v1.length ≠ v2.length then (.fin 0, some (.lenMismatch v1.length v2.length))
  else (GoF.sqrt sf ((sumSquares v1 v2 (.fin 0)).div (GoF.ofNat v1.length)), none)

/-- The row loop of `GetMatrixRMSE`: the first row failure aborts, wrapped
with its row index. -/
def matRMSELoop (sf : ℚ → ℚ) : List Vector → List Vector → Nat → GoF →
    GoF × Option MErr
  | r1 :: rest1, r2 :: rest2, i, sum =>
      match GetVectorRMSE sf r1 r2 with
      | (_, some e) => (.fin 0, some (.wrapRow i e))
      | (rmse, none) => matRMSELoop sf rest1 rest2 (i + 1) (GoF.add sum rmse)
  | _, _, _, sum => (sum, none)

/-- Model of `GetMatrixRMSE`: row-count mismatch is an error, otherwise the
per-row RMSE sum is divided by the row count (a float division, so zero rows
give `0/0 = NaN`). -/
def GetMatrixRMSE (sf : ℚ → ℚ) (m1 m2 : Matrix) : GoF × Option MErr :=
  if m1.Vectors.length ≠ m2.Vectors.length then
    (.fin 0, some (.rowCountMismatch m1.Vectors.length m2.Vectors.length))
  else
    match matRMSELoop sf m1.Vectors m2.Vectors 0 (.fin 0) with
    | (_, some e) => (.fin 0, some e)
    | (sum, none) => (sum.div (GoF.ofNat m1.Vectors.length), none)

/-- Width of a CSV line as the reader sees it: the number of parsed fields on
success, `none` when a field fails to parse (used to state claims about the
reader). -/
def csvWidth (delim : GoStr) (defaultVal : GoF) (l : GoStr) : Option Nat :=
  match parseCSVTokens defaultVal (splitGo delim (trimSpace l)) with
  | .ok v => some v.length
  | .error _ => none

lemma gof_self_diff_not_gt_zero (x : GoF) :
    GoF.gt ((GoF.sub x x).abs) (GoF.fin 0) = false := by
  cases x <;> simp [GoF.sub, GoF.abs, GoF.gt, GoF.lt]

lemma isEqVecLoop_refl (v : Vector) : ∀ i, isEqVecLoop (GoF.fin 0) v v i = none := by
  induction v with
  | nil => intro i; simp [isEqVecLoop]
  | cons x xs ih => intro i; simp [isEqVecLoop, gof_self_diff_not_gt_zero, ih]

/-- C8: for every Vector v (including vectors containing NaN or infinities),
IsEqualVectors(v, v, 0) succeeds: `|x - x|` is 0 for finite x and NaN for
infinite or NaN x, and a NaN difference never compares greater than the zero
threshold, so no mismatch is ever reported. -/
theorem c8_isequal_refl (v : Vector) : IsEqualVectors v v (GoF.fin 0) = none := by
  simp [IsEqualVectors, isEqVecLoop_refl]

/-- C10: despite its error-returning signature, GetSparseMatrixFromSlice
returns a nil error on every input slice. -/
theorem c10_sparse_slice_never_fails (data : List (List GoF)) :
    (GetSparseMatrixFromSlice data).2 = none := rfl

/-- C3: on the single terminated line "1 3:0.5 7:2.0" the libsvm reader
returns exactly one row with stored mapping {3 ↦ 0.5, 7 ↦ 2.0}; and in
general the first space-separated token of a line is discarded as a label
(the parse result does not depend on its content). -/
theorem c3_libsvm_line_parse :
    ReadLibsvmFileToSparseMatrix ⟨[("1 3:0.5 7:2.0").toList], []⟩
      = (⟨[[(3, GoF.fin (1/2)), (7, GoF.fin 2)]]⟩, none)
    ∧ ∀ (lab lab' : GoStr) (rest : List GoStr),
        parseLibsvmTokens (lab :: rest) = parseLibsvmTokens (lab' :: rest) := by
  refine ⟨by with_unfolding_all decide, ?_⟩
  intro lab lab' rest
  rfl

lemma readLibsvmReads_tail_ignored (lines : List GoStr) :
    ∀ (t t' : GoStr) (acc : List SparseVector),
      readLibsvmReads (lines.map (fun l => (l, false)) ++ [(t, true)]) acc
        = readLibsvmReads (lines.map (fun l => (l, false)) ++ [(t', true)]) acc := by
  induction lines with
  | nil => intro t t' acc; rfl
  | cons l rest ih =>
    intro t t' acc
    simp only [List.map_cons, List.cons_append, readLibsvmReads]
    cases h : (trimSpace l).isEmpty <;> simp [h]
    cases hp : parseLibsvmTokens (splitGo [' '] (trimSpace l)) <;> simp [hp]
    exact ih t t' _

lemma readCSVReads_tail_as_line (delim : GoStr) (defv : GoF) (lines : List GoStr) :
    ∀ (t : GoStr) (acc : List Vector) (cd : Int) (row : Nat),
      readCSVReads delim defv (lines.map (fun l => (l, false)) ++ [(t, true)]) acc cd row
        = readCSVReads delim defv (lines.map (fun l => (l, false)) ++ [(t, false), ([], true)]) acc cd row := by
  induction lines with
  | nil =>
    intro t acc cd row
    simp only [List.map_nil, List.nil_append, readCSVReads]
    cases h : (trimSpace t).isEmpty <;> simp [h]
    cases hp : parseCSVTokens defv (splitGo delim (trimSpace t)) with
    | error e => simp [hp]
    | ok vec =>
      simp only [hp]
      by_cases hcd : cd = -1
      · simp [hcd, readCSVReads, trimSpace]
      · by_cases h2 : cd = (vec.length : Int) <;>
          simp [hcd, h2, readCSVReads, trimSpace]
  | cons l rest ih =>
    intro t acc cd row
    simp only [List.map_cons, List.cons_append, readCSVReads]
    cases h : (trimSpace l).isEmpty <;> simp [h]
    cases hp : parseCSVTokens defv (splitGo delim (trimSpace l)) with
    | error e => simp [hp]
    | ok vec =>
      simp only [hp]
      by_cases hcd : cd = -1
      · simp only [hcd, if_pos rfl]
        exact ih t _ _ _
      · by_cases h2 : cd = (vec.length : Int) <;> simp [hcd, h2]
        exact ih t _ _ _

/-- C9: the libsvm reader silently discards an unterminated final line (its
result never depends on the tail after the last newline), while the CSV
reader parses the same unterminated tail exactly as if it were a terminated
line; concretely, on the file consisting of the bare unterminated text "1"
the libsvm reader returns zero rows and no error while the CSV reader
returns the row [1]. -/
theorem c9_unterminated_line_divergence :
    (∀ (lines : List GoStr) (t t' : GoStr),
       ReadLibsvmFileToSparseMatrix ⟨lines, t⟩ = ReadLibsvmFileToSparseMatrix ⟨lines, t'⟩)
    ∧ (∀ (f : GoFile) (delim : GoStr) (defv : GoF),
       ReadCSVFileToDenseMatrix f delim defv
         = ReadCSVFileToDenseMatrix ⟨f.lines ++ [f.tail], []⟩ delim defv)
    ∧ (ReadLibsvmFileToSparseMatrix ⟨[], ("1").toList⟩ = (⟨[]⟩, none)
       ∧ ReadCSVFileToDenseMatrix ⟨[], ("1").toList⟩ [','] (GoF.fin 0) = (⟨[[GoF.fin 1]]⟩, none)) := by
  refine ⟨?_, ?_, by with_unfolding_all decide, by with_unfolding_all decide⟩
  · intro lines t t'
    exact readLibsvmReads_tail_ignored lines t t' []
  · intro f delim defv
    show readCSVReads delim defv (f.lines.map (fun l => (l, false)) ++ [(f.tail, true)]) [] (-1) 0 = _
    rw [readCSVReads_tail_as_line]
    simp [ReadCSVFileToDenseMatrix, fileReads, List.map_append]

-- C7
lemma readLibsvmReads_err_empty : ∀ (reads : List (GoStr × Bool)) (acc : List SparseVector) (e : LibsvmErr),
    (readLibsvmReads reads acc).2 = some e → (readLibsvmReads reads acc).1 = ⟨[]⟩ := by
  intro reads
  induction reads with
  | nil => intro acc e h; simp [readLibsvmReads] at h
  | cons p rest ih =>
    intro acc e h
    obtain ⟨line, isEof⟩ := p
    simp only [readLibsvmReads] at h ⊢
    cases isEof with
    | true => simp at h
    | false =>
      simp only [Bool.false_eq_true, if_false] at h ⊢
      cases hl : (trimSpace line).isEmpty <;> simp [hl] at h ⊢
      cases hp : parseLibsvmTokens (splitGo [' '] (trimSpace line)) <;> simp [hp] at h ⊢
      exact ih _ e h

lemma readCSVReads_err_empty (delim : GoStr) (defv : GoF) :
    ∀ (reads : List (GoStr × Bool)) (acc : List Vector) (cd : Int) (row : Nat) (e : CSVErr),
    (readCSVReads delim defv reads acc cd row).2 = some e →
    (readCSVReads delim defv reads acc cd row).1 = ⟨[]⟩ := by
  intro reads
  induction reads with
  | nil => intro acc cd row e h; simp [readCSVReads] at h
  | cons p rest ih =>
    intro acc cd row e h
    obtain ⟨line, b⟩ := p
    simp only [readCSVReads] at h ⊢
    cases hl : (trimSpace line).isEmpty <;> simp [hl] at h ⊢
    cases hp : parseCSVTokens defv (splitGo delim (trimSpace line)) with
    | error e' => simp [hp]
    | ok vec =>
      simp only [hp] at h ⊢
      by_cases hcd : cd = -1
      · simp only [hcd, if_pos rfl] at h ⊢
        exact ih _ _ _ e h
      · by_cases h2 : cd = (vec.length : Int) <;> simp [hcd, h2] at h ⊢
        exact ih _ _ _ e h

/-- C7: whenever either reader fails, the matrix component of its return
value is the empty matrix: no partially populated matrix containing the rows
parsed before the failure is ever returned. -/
theorem c7_error_empty_matrix :
    (∀ (f : GoFile) (e : LibsvmErr),
       (ReadLibsvmFileToSparseMatrix f).2 = some e →
       (ReadLibsvmFileToSparseMatrix f).1 = ⟨[]⟩)
    ∧ (∀ (f : GoFile) (delim : GoStr) (defv : GoF) (e : CSVErr),
       (ReadCSVFileToDenseMatrix f delim defv).2 = some e →
       (ReadCSVFileToDenseMatrix f delim defv).1 = ⟨[]⟩) := by
  constructor
  · intro f e h
    exact readLibsvmReads_err_empty _ _ e h
  · intro f delim defv e h
    exact readCSVReads_err_empty delim defv _ _ _ _ e h

/-- Witness for C7 at two concrete failing files. -/
theorem c7_error_empty_matrix_witness :
    (ReadLibsvmFileToSparseMatrix ⟨[("1").toList], []⟩).1 = ⟨[]⟩
    ∧ (ReadCSVFileToDenseMatrix ⟨[("x").toList], []⟩ [','] (GoF.fin 0)).1 = ⟨[]⟩ :=
  ⟨c7_error_empty_matrix.1 _ .tooFewColumns (by with_unfolding_all decide),
   c7_error_empty_matrix.2 _ _ _ (.badFloat (("x").toList)) (by with_unfolding_all decide)⟩

/-- C4 counterexample: the token "4294967296:1.0" has a decimal non-negative
integer index and a well-formed float value, yet the read fails, because
`strconv.ParseUint(_, 10, 32)` rejects values of 2^32 and above.  This
refutes the claim that the index domain is unbounded and that the parse
fails only on a malformed index or value. -/
theorem c4_index_magnitude_cex :
    ReadLibsvmFileToSparseMatrix ⟨[("1 4294967296:1.0").toList], []⟩
      = (⟨[]⟩, some (.badIndex ("4294967296").toList)) := by
  with_unfolding_all decide

/-- C4 (amended): a token `<index>:<value>` is accepted iff `<index>` is a
string of decimal digits whose value is below 2^32 (the bitSize-32 bound of
ParseUint) and `<value>` parses as a float; an accepted token stores the
value at the literal parsed index (no base conversion or offset), while a
decimal index of 2^32 or more is rejected with an error naming the index
field. -/
theorem c4_index_bounded_store :
    (∀ (t a b : GoStr) (rest : List GoStr) (acc : SparseVector) (n : ℕ) (q : ℚ),
       splitGo [':'] t = [a, b] → parseUint32 a = some n → parseFloatQ b = some q →
       parsePairs (t :: rest) acc = parsePairs rest (svInsert n (GoF.fin q) acc))
    ∧ (∀ (t a b : GoStr) (rest : List GoStr) (acc : SparseVector) (n : ℕ),
       splitGo [':'] t = [a, b] → parseDigits a = some n → 2 ^ 32 ≤ n →
       parsePairs (t :: rest) acc = .error (.badIndex a)) := by
  constructor
  · intro t a b rest acc n q hsplit hn hq
    cases t with
    | nil => rw [show splitGo [':'] [] = [[]] from rfl] at hsplit; simp at hsplit
    | cons c t' =>
      simp only [parsePairs, List.isEmpty_cons, hsplit, hn, hq]
      rfl
  · intro t a b rest acc n hsplit hn hbig
    have hu : parseUint32 a = none := by
      simp only [parseUint32, hn]
      rw [if_neg (by omega)]
    cases t with
    | nil => rw [show splitGo [':'] [] = [[]] from rfl] at hsplit; simp at hsplit
    | cons c t' =>
      simp only [parsePairs, List.isEmpty_cons, hsplit, hu]
      rfl

/-- Witness for the amended C4 at concrete accepted and rejected tokens. -/
theorem c4_index_bounded_store_witness :
    (parsePairs [("3:0.5").toList] [] = parsePairs [] (svInsert 3 (GoF.fin (1/2)) []))
    ∧ (parsePairs [("4294967296:1.0").toList] [] = .error (.badIndex ("4294967296").toList)) :=
  ⟨c4_index_bounded_store.1 _ (("3").toList) (("0.5").toList) [] [] 3 (1/2)
     (by decide) (by decide) (by with_unfolding_all decide),
   c4_index_bounded_store.2 _ (("4294967296").toList) (("1.0").toList) [] [] 4294967296
     (by decide) (by decide) (by norm_num)⟩

lemma svInsert_fresh (k : Nat) (v : GoF) (m : SparseVector)
    (h : ∀ p ∈ m, p.1 ≠ k) : svInsert k v m = m ++ [(k, v)] := by
  induction m with
  | nil => rfl
  | cons p rest ih =>
    obtain ⟨k', v'⟩ := p
    have hk : k ≠ k' := fun he => (h (k', v') (by simp)) (by simp [he])
    simp only [svInsert, if_neg hk, List.cons_append]
    rw [ih (fun p hp => h p (by simp [hp]))]

lemma sliceRowToSparse_spec (row : List GoF) :
    ∀ (j : Nat) (acc : SparseVector), (∀ p ∈ acc, p.1 < j) →
      sliceRowToSparse row j acc
        = acc ++ (List.enumFrom j row).filter (fun p => GoF.ne p.2 (GoF.fin 0)) := by
  induction row with
  | nil => intro j acc h; simp [sliceRowToSparse, List.enumFrom]
  | cons x rest ih =>
    intro j acc h
    have hfresh : ∀ p ∈ acc, p.1 ≠ j := fun p hp => Nat.ne_of_lt (h p hp)
    cases hx : GoF.ne x (GoF.fin 0) with
    | false =>
      have hstep : sliceRowToSparse (x :: rest) j acc = sliceRowToSparse rest (j + 1) acc := by
        simp [sliceRowToSparse, hx]
      rw [hstep, ih (j + 1) acc (fun p hp => Nat.lt_succ_of_lt (h p hp))]
      simp [List.enumFrom, List.filter_cons, hx]
    | true =>
      have hstep : sliceRowToSparse (x :: rest) j acc
          = sliceRowToSparse rest (j + 1) (svInsert j x acc) := by
        simp [sliceRowToSparse, hx]
      have hkeys : ∀ p ∈ svInsert j x acc, p.1 < j + 1 := by
        rw [svInsert_fresh j x acc hfresh]
        intro p hp
        rcases List.mem_append.1 hp with h1 | h1
        · exact Nat.lt_succ_of_lt (h p h1)
        · simp at h1; simp [h1]
      rw [hstep, ih (j + 1) _ hkeys, svInsert_fresh j x acc hfresh]
      simp [List.enumFrom, List.filter_cons, hx]

lemma gsmLoop_spec (data : List (List GoF)) :
    ∀ acc, gsmLoop data acc = acc ++ data.map (fun row => sliceRowToSparse row 0 []) := by
  induction data with
  | nil => intro acc; simp [gsmLoop]
  | cons row rest ih => intro acc; simp [gsmLoop, ih]

lemma enumFrom_filter_map_snd (l : List GoF) :
    ∀ n, ((List.enumFrom n l).filter (fun p => GoF.ne p.2 (GoF.fin 0))).map Prod.snd
      = l.filter (fun x => GoF.ne x (GoF.fin 0)) := by
  induction l with
  | nil => intro n; simp [List.enumFrom]
  | cons x rest ih =>
    intro n
    cases hx : GoF.ne x (GoF.fin 0) <;>
      simp [List.enumFrom, List.filter_cons, hx, ih]

/-- C2: GetSparseMatrixFromSlice builds one SparseVector per input row
(row count preserved) containing exactly the (index, value) pairs whose
value compares `!= 0.0`, and composing with SparseMatrix.ToFloat64 yields,
for each row, exactly its non-zero values (no zero-padding; absent indices
are not materialised). -/
theorem c2_sparse_from_slice_nonzero (data : List (List GoF)) :
    (GetSparseMatrixFromSlice data).1.Vectors.length = data.length
    ∧ (GetSparseMatrixFromSlice data).1.Vectors
        = data.map (fun row => (List.enumFrom 0 row).filter (fun p => GoF.ne p.2 (GoF.fin 0)))
    ∧ (GetSparseMatrixFromSlice data).1.ToFloat64
        = data.map (fun row => row.filter (fun x => GoF.ne x (GoF.fin 0))) := by
  have hrows : (GetSparseMatrixFromSlice data).1.Vectors
      = data.map (fun row => (List.enumFrom 0 row).filter (fun p => GoF.ne p.2 (GoF.fin 0))) := by
    show gsmLoop data [] = _
    rw [gsmLoop_spec data []]
    simp only [List.nil_append]
    exact List.map_congr_left (fun row _ => sliceRowToSparse_spec row 0 [] (by simp))
  refine ⟨by simp [hrows], hrows, ?_⟩
  show (GetSparseMatrixFromSlice data).1.Vectors.map (fun v => v.map Prod.snd) = _
  rw [hrows]
  simp only [List.map_map]
  exact List.map_congr_left (fun row _ => enumFrom_filter_map_snd row 0)

lemma gof_gt_irrefl (x : GoF) : GoF.gt x x = false := by
  cases x <;> simp [GoF.gt, GoF.lt]

lemma gof_gt_trans {a b c : GoF} (h1 : GoF.gt a b = true) (h2 : GoF.gt b c = true) :
    GoF.gt a c = true := by
  cases a <;> cases b <;> cases c <;> simp_all [GoF.gt, GoF.lt]
  linarith

lemma gof_gt_asymm {a b : GoF} (h : GoF.gt a b = true) : GoF.gt b a = false := by
  cases a <;> cases b <;> simp_all [GoF.gt, GoF.lt]
  linarith

lemma gof_gt_total {a b : GoF} (ha : a ≠ GoF.nan) (hb : b ≠ GoF.nan) :
    a = b ∨ GoF.gt a b = true ∨ GoF.gt b a = true := by
  cases a with
  | fin q =>
    cases b with
    | fin r =>
      simp only [GoF.gt, GoF.lt, decide_eq_true_eq, GoF.fin.injEq]
      rcases lt_trichotomy q r with h | h | h <;> simp [h]
    | pinf => simp [GoF.gt, GoF.lt]
    | ninf => simp [GoF.gt, GoF.lt]
    | nan => exact absurd rfl hb
  | pinf => cases b <;> simp_all [GoF.gt, GoF.lt]
  | ninf => cases b <;> simp_all [GoF.gt, GoF.lt]
  | nan => exact absurd rfl ha

lemma gof_ninf_of_not_gt_ninf {x : GoF} (hx : x ≠ GoF.nan)
    (h : GoF.gt x GoF.ninf = false) : x = GoF.ninf := by
  cases x <;> simp_all [GoF.gt, GoF.lt]

lemma maxIdxLoop_spec (l : List GoF) :
    ∀ (idx r : Nat) (maxVal : GoF), (∀ x ∈ l, x ≠ GoF.nan) →
    (maxIdxLoop l idx maxVal r = r
      ∧ ∀ j < l.length, GoF.gt (l.getD j GoF.nan) maxVal = false)
    ∨ (∃ j, j < l.length ∧ maxIdxLoop l idx maxVal r = idx + j
        ∧ GoF.gt (l.getD j GoF.nan) maxVal = true
        ∧ (∀ k < l.length, GoF.gt (l.getD k GoF.nan) (l.getD j GoF.nan) = false)
        ∧ (∀ k < j, GoF.gt (l.getD j GoF.nan) (l.getD k GoF.nan) = true)) := by
  induction l with
  | nil =>
    intro idx r maxVal _
    left
    exact ⟨rfl, fun j hj => absurd hj (Nat.not_lt_zero j)⟩
  | cons x rest ih =>
    intro idx r maxVal h
    have hx : x ≠ GoF.nan := h x (by simp)
    have hrest : ∀ y ∈ rest, y ≠ GoF.nan := fun y hy => h y (by simp [hy])
    cases hgt : GoF.gt x maxVal with
    | true =>
      have hloop : maxIdxLoop (x :: rest) idx maxVal r = maxIdxLoop rest (idx + 1) x idx := by
        simp [maxIdxLoop, hgt]
      rcases ih (idx + 1) idx x hrest with ⟨heq, hall⟩ | ⟨j, hj, heq, hbeat, hmax, hfirst⟩
      · right
        refine ⟨0, by simp, by rw [hloop, heq]; omega, by simpa using hgt, ?_,
          fun k hk => absurd hk (Nat.not_lt_zero k)⟩
        intro k hk
        cases k with
        | zero => simpa using gof_gt_irrefl x
        | succ k' =>
          have := hall k' (by simpa using hk)
          simpa using this
      · right
        refine ⟨j + 1, by simpa using hj, by rw [hloop, heq]; omega, ?_, ?_, ?_⟩
        · have : GoF.gt (rest.getD j GoF.nan) x = true := hbeat
          simpa using gof_gt_trans this hgt
        · intro k hk
          cases k with
          | zero => simpa using gof_gt_asymm hbeat
          | succ k' =>
            have := hmax k' (by simpa using hk)
            simpa using this
        · intro k hk
          cases k with
          | zero => simpa using hbeat
          | succ k' =>
            have := hfirst k' (by omega)
            simpa using this
    | false =>
      have hloop : maxIdxLoop (x :: rest) idx maxVal r = maxIdxLoop rest (idx + 1) maxVal r := by
        simp [maxIdxLoop, hgt]
      rcases ih (idx + 1) r maxVal hrest with ⟨heq, hall⟩ | ⟨j, hj, heq, hbeat, hmax, hfirst⟩
      · left
        refine ⟨by rw [hloop, heq], ?_⟩
        intro k hk
        cases k with
        | zero => simpa using hgt
        | succ k' =>
          have := hall k' (by simpa using hk)
          simpa using this
      · have hjnan : rest.getD j GoF.nan ≠ GoF.nan := by
          have hmem : rest.getD j GoF.nan ∈ rest := by
            rw [List.getD_eq_getElem rest GoF.nan hj]
            exact List.getElem_mem hj
          exact hrest _ hmem
        right
        refine ⟨j + 1, by simpa using hj, by rw [hloop, heq]; omega, by simpa using hbeat, ?_, ?_⟩
        · intro k hk
          cases k with
          | zero =>
            simp only [List.getD_cons_zero, List.getD_cons_succ]
            cases hxj : GoF.gt x (rest.getD j GoF.nan) with
            | false => rfl
            | true => exact absurd (gof_gt_trans hxj hbeat) (by simp [hgt])
          | succ k' =>
            have := hmax k' (by simpa using hk)
            simpa using this
        · intro k hk
          cases k with
          | zero =>
            simp only [List.getD_cons_zero, List.getD_cons_succ]
            rcases gof_gt_total hjnan hx with heq2 | hgt2 | hlt2
            · rw [heq2] at hbeat
              rw [hbeat] at hgt
              exact absurd hgt (by simp)
            · exact hgt2
            · exact absurd (gof_gt_trans hlt2 hbeat) (by simp [hgt])
          | succ k' =>
            have := hfirst k' (by omega)
            simpa using this

/-- C5: on every non-empty Vector without NaN entries (the maximum is not
well defined under NaN), GetVectorMaxIdx succeeds and returns the smallest
index holding the maximum element: no element is strictly greater than the
returned one, and the returned element is strictly greater than every
earlier element (so a later equal maximum never replaces an earlier one);
on the empty Vector it returns -1 with a domain error. -/
theorem c5_maxidx_first_max :
    (∀ v : Vector, v ≠ [] → (∀ x ∈ v, x ≠ GoF.nan) →
      (GetVectorMaxIdx v).2 = none
      ∧ (GetVectorMaxIdx v).1 = ((GetVectorMaxIdx v).1.toNat : Int)
      ∧ (GetVectorMaxIdx v).1.toNat < v.length
      ∧ (∀ j < v.length,
          GoF.gt (v.getD j GoF.nan) (v.getD (GetVectorMaxIdx v).1.toNat GoF.nan) = false)
      ∧ (∀ j < (GetVectorMaxIdx v).1.toNat,
          GoF.gt (v.getD (GetVectorMaxIdx v).1.toNat GoF.nan) (v.getD j GoF.nan) = true))
    ∧ GetVectorMaxIdx [] = (-1, some MErr.emptyVector) := by
  refine ⟨?_, rfl⟩
  intro v hv hnan
  have hlen : ¬ v.length = 0 := by simpa [List.length_eq_zero] using hv
  have hvm : GetVectorMaxIdx v = ((maxIdxLoop v 0 GoF.ninf 0 : ℤ), none) := by
    simp [GetVectorMaxIdx, hlen]
  rcases maxIdxLoop_spec v 0 0 GoF.ninf hnan with ⟨heq, hall⟩ | ⟨j, hj, heq, _, hmax, hfirst⟩
  · -- every element fails to beat -Inf, so every element is -Inf and index 0 is returned
    have hallninf : ∀ k, (hk : k < v.length) → v.getD k GoF.nan = GoF.ninf := by
      intro k hk
      have hmem : v.getD k GoF.nan ∈ v := by
        rw [List.getD_eq_getElem v GoF.nan hk]
        exact List.getElem_mem hk
      exact gof_ninf_of_not_gt_ninf (hnan _ hmem) (hall k hk)
    rw [hvm, heq]
    refine ⟨rfl, by simp, by omega, ?_, ?_⟩
    · intro j hj
      simp only [Int.toNat_natCast]
      rw [hallninf j hj, hallninf 0 (by omega)]
      simp [GoF.gt, GoF.lt]
    · intro j hj
      simp at hj
  · rw [hvm, heq]
    refine ⟨rfl, by simp, ?_, ?_, ?_⟩
    · simpa using hj
    · intro k hk
      simpa using hmax k hk
    · intro k hk
      have := hfirst k (by simpa using hk)
      simpa using this

/-- Witness for C5 at the spec's example vector [3, 5, 5, 1]. -/
theorem c5_maxidx_first_max_witness :
    (GetVectorMaxIdx [GoF.fin 3, GoF.fin 5, GoF.fin 5, GoF.fin 1]).2 = none
    ∧ (GetVectorMaxIdx [GoF.fin 3, GoF.fin 5, GoF.fin 5, GoF.fin 1]).1
        = ((GetVectorMaxIdx [GoF.fin 3, GoF.fin 5, GoF.fin 5, GoF.fin 1]).1.toNat : Int)
    ∧ (GetVectorMaxIdx [GoF.fin 3, GoF.fin 5, GoF.fin 5, GoF.fin 1]).1.toNat
        < ([GoF.fin 3, GoF.fin 5, GoF.fin 5, GoF.fin 1] : Vector).length
    ∧ (∀ j < ([GoF.fin 3, GoF.fin 5, GoF.fin 5, GoF.fin 1] : Vector).length,
        GoF.gt (([GoF.fin 3, GoF.fin 5, GoF.fin 5, GoF.fin 1] : Vector).getD j GoF.nan)
          (([GoF.fin 3, GoF.fin 5, GoF.fin 5, GoF.fin 1] : Vector).getD
            (GetVectorMaxIdx [GoF.fin 3, GoF.fin 5, GoF.fin 5, GoF.fin 1]).1.toNat GoF.nan) = false)
    ∧ (∀ j < (GetVectorMaxIdx [GoF.fin 3, GoF.fin 5, GoF.fin 5, GoF.fin 1]).1.toNat,
        GoF.gt (([GoF.fin 3, GoF.fin 5, GoF.fin 5, GoF.fin 1] : Vector).getD
            (GetVectorMaxIdx [GoF.fin 3, GoF.fin 5, GoF.fin 5, GoF.fin 1]).1.toNat GoF.nan)
          (([GoF.fin 3, GoF.fin 5, GoF.fin 5, GoF.fin 1] : Vector).getD j GoF.nan) = true) :=
  c5_maxidx_first_max.1 [GoF.fin 3, GoF.fin 5, GoF.fin 5, GoF.fin 1]
    (by decide) (by decide)

lemma gof_fin_of_isFinite {x : GoF} (h : x.isFinite = true) : ∃ a : ℚ, x = .fin a := by
  cases x <;> simp_all [GoF.isFinite]

lemma sumSquares_fin (v1 : Vector) :
    ∀ (v2 : Vector) (c : ℚ), 0 ≤ c →
      (∀ x ∈ v1, x.isFinite = true) → (∀ x ∈ v2, x.isFinite = true) →
      ∃ q : ℚ, sumSquares v1 v2 (.fin c) = .fin q ∧ 0 ≤ q := by
  induction v1 with
  | nil => intro v2 c hc _ _; exact ⟨c, by cases v2 <;> simp [sumSquares], hc⟩
  | cons x xs ih =>
    intro v2 c hc h1 h2
    cases v2 with
    | nil => exact ⟨c, by simp [sumSquares], hc⟩
    | cons y ys =>
      obtain ⟨a, ha⟩ := gof_fin_of_isFinite (h1 x (by simp))
      obtain ⟨b, hb⟩ := gof_fin_of_isFinite (h2 y (by simp))
      have hstep : sumSquares (x :: xs) (y :: ys) (.fin c)
          = sumSquares xs ys (.fin (c + (a - b) * (a - b))) := by
        subst ha hb
        simp [sumSquares, GoF.add, GoF.sq, GoF.sub]
      rw [hstep]
      exact ih ys (c + (a - b) * (a - b))
        (by nlinarith [mul_self_nonneg (a - b)])
        (fun z hz => h1 z (by simp [hz])) (fun z hz => h2 z (by simp [hz]))

lemma getVectorRMSE_fin (sf : ℚ → ℚ) (v1 v2 : Vector)
    (hlen : v1.length = v2.length) (hne : v1 ≠ [])
    (h1 : ∀ x ∈ v1, x.isFinite = true) (h2 : ∀ x ∈ v2, x.isFinite = true) :
    ∃ q : ℚ, GetVectorRMSE sf v1 v2 = (.fin q, none) := by
  obtain ⟨q0, hq0, hq0n⟩ := sumSquares_fin v1 v2 0 le_rfl h1 h2
  have hlen0 : (v2.length : ℚ) ≠ 0 := by
    have : v2.length ≠ 0 := by rw [← hlen]; simpa [List.length_eq_zero] using hne
    exact_mod_cast this
  refine ⟨sf (q0 / v2.length), ?_⟩
  simp only [GetVectorRMSE, hlen, ne_eq, not_true_eq_false, ite_false]
  rw [hq0]
  simp only [GoF.ofNat, GoF.div]
  rw [if_neg hlen0]
  simp only [GoF.sqrt]
  rw [if_neg (not_lt.2 (div_nonneg hq0n (by positivity)))]

lemma matRMSELoop_fold (sf : ℚ → ℚ) (rows1 : List Vector) :
    ∀ (rows2 : List Vector) (i : Nat) (sum : GoF),
      rows1.map List.length = rows2.map List.length →
      matRMSELoop sf rows1 rows2 i sum
        = ((List.zipWith (fun r1 r2 => (GetVectorRMSE sf r1 r2).1) rows1 rows2).foldl
            GoF.add sum, none) := by
  induction rows1 with
  | nil =>
    intro rows2 i sum h
    have : rows2 = [] := by simpa using h.symm
    subst this
    simp [matRMSELoop]
  | cons r1 rs1 ih =>
    intro rows2 i sum h
    cases rows2 with
    | nil => simp at h
    | cons r2 rs2 =>
      simp only [List.map_cons, List.cons.injEq] at h
      have hg : GetVectorRMSE sf r1 r2 = ((GetVectorRMSE sf r1 r2).1, none) := by
        simp [GetVectorRMSE, h.1]
      simp only [matRMSELoop]
      rw [hg]
      dsimp only
      rw [ih rs2 (i + 1) (GoF.add sum (GetVectorRMSE sf r1 r2).1) h.2]
      simp [List.zipWith_cons_cons, List.foldl_cons]

lemma foldl_add_fin (l : List GoF) :
    ∀ c : ℚ, (∀ x ∈ l, x.isFinite = true) → ∃ q : ℚ, l.foldl GoF.add (.fin c) = .fin q := by
  induction l with
  | nil => intro c _; exact ⟨c, rfl⟩
  | cons x xs ih =>
    intro c h
    obtain ⟨a, ha⟩ := gof_fin_of_isFinite (h x (by simp))
    subst ha
    simpa [GoF.add] using ih (c + a) (fun z hz => h z (by simp [hz]))

lemma zipWith_rmse_fin (sf : ℚ → ℚ) (rows1 : List Vector) :
    ∀ rows2 : List Vector,
      rows1.map List.length = rows2.map List.length →
      (∀ r ∈ rows1, r ≠ [] ∧ ∀ x ∈ r, x.isFinite = true) →
      (∀ r ∈ rows2, ∀ x ∈ r, x.isFinite = true) →
      ∀ z ∈ List.zipWith (fun r1 r2 => (GetVectorRMSE sf r1 r2).1) rows1 rows2,
        z.isFinite = true := by
  induction rows1 with
  | nil => intro rows2 h _ _ z hz; simp at hz
  | cons r1 rs1 ih =>
    intro rows2 h h1 h2 z hz
    cases rows2 with
    | nil => simp at hz
    | cons r2 rs2 =>
      simp only [List.map_cons, List.cons.injEq] at h
      simp only [List.zipWith_cons_cons, List.mem_cons] at hz
      rcases hz with hz | hz
      · obtain ⟨hne, hf1⟩ := h1 r1 (by simp)
        obtain ⟨q, hq⟩ := getVectorRMSE_fin sf r1 r2 h.1 hne hf1 (h2 r2 (by simp))
        rw [hz, hq]
        rfl
      · exact ih rs2 h.2 (fun r hr => h1 r (by simp [hr])) (fun r hr => h2 r (by simp [hr])) z hz

/-- C6 counterexample: on two empty matrices GetMatrixRMSE returns NaN
(from the float division 0/0) together with a nil error, refuting the claim
that a NaN result is never produced without an error being reported. -/
theorem c6_rmse_nan_cex : GetMatrixRMSE id ⟨[]⟩ ⟨[]⟩ = (GoF.nan, none) := by
  with_unfolding_all decide

/-- C6 (amended): for matrices whose corresponding rows have equal lengths,
GetMatrixRMSE returns, with no error, the float sum of the per-row vector
RMSE values divided by the row count (the arithmetic mean under float
semantics); the no-NaN guarantee holds only when there is at least one row,
every row is non-empty and all entries are finite — in particular on two
empty matrices the result is NaN with a nil error (see the
counterexample). -/
theorem c6_matrix_rmse_mean (sf : ℚ → ℚ) (m1 m2 : Matrix)
    (h : m1.Vectors.map List.length = m2.Vectors.map List.length) :
    GetMatrixRMSE sf m1 m2
      = (((List.zipWith (fun r1 r2 => (GetVectorRMSE sf r1 r2).1) m1.Vectors m2.Vectors).foldl
            GoF.add (.fin 0)).div (GoF.ofNat m1.Vectors.length), none)
    ∧ (m1.Vectors ≠ [] →
       (∀ r ∈ m1.Vectors, r ≠ [] ∧ ∀ x ∈ r, x.isFinite = true) →
       (∀ r ∈ m2.Vectors, ∀ x ∈ r, x.isFinite = true) →
       ∃ q : ℚ, GetMatrixRMSE sf m1 m2 = (.fin q, none)) := by
  have hcount : m1.Vectors.length = m2.Vectors.length := by
    have := congrArg List.length h
    simpa using this
  have hmain : GetMatrixRMSE sf m1 m2
      = (((List.zipWith (fun r1 r2 => (GetVectorRMSE sf r1 r2).1) m1.Vectors m2.Vectors).foldl
            GoF.add (.fin 0)).div (GoF.ofNat m1.Vectors.length), none) := by
    simp only [GetMatrixRMSE]
    rw [if_neg (by simp [hcount])]
    rw [matRMSELoop_fold sf m1.Vectors m2.Vectors 0 (.fin 0) h]
  refine ⟨hmain, ?_⟩
  intro hne h1 h2
  obtain ⟨q, hq⟩ := foldl_add_fin
    (List.zipWith (fun r1 r2 => (GetVectorRMSE sf r1 r2).1) m1.Vectors m2.Vectors) 0
    (zipWith_rmse_fin sf m1.Vectors m2.Vectors h h1 h2)
  have hlen0 : (m1.Vectors.length : ℚ) ≠ 0 := by
    have : m1.Vectors.length ≠ 0 := by simpa [List.length_eq_zero] using hne
    exact_mod_cast this
  refine ⟨q / m1.Vectors.length, ?_⟩
  rw [hmain, hq]
  simp only [GoF.div, GoF.ofNat]
  rw [if_neg hlen0]

/-- Witness for the amended C6 at a concrete pair of 1-by-1 matrices. -/
theorem c6_matrix_rmse_mean_witness :
    GetMatrixRMSE id ⟨[[GoF.fin 1]]⟩ ⟨[[GoF.fin 3]]⟩
      = (((List.zipWith (fun r1 r2 => (GetVectorRMSE id r1 r2).1) [[GoF.fin 1]] [[GoF.fin 3]]).foldl
            GoF.add (.fin 0)).div (GoF.ofNat 1), none) :=
  (c6_matrix_rmse_mean id ⟨[[GoF.fin 1]]⟩ ⟨[[GoF.fin 3]]⟩ (by decide)).1

lemma readCSVReads_ok_uniform (delim : GoStr) (defv : GoF) :
    ∀ (reads : List (GoStr × Bool)) (acc : List Vector) (colDim : Int) (row : Nat) (m : Matrix),
      (∀ r ∈ acc, (r.length : Int) = colDim) →
      (colDim = -1 → acc = []) →
      readCSVReads delim defv reads acc colDim row = (m, none) →
      ∀ r1 ∈ m.Vectors, ∀ r2 ∈ m.Vectors, r1.length = r2.length := by
  intro reads
  induction reads with
  | nil =>
    intro acc colDim row m hinv _ hres r1 h1 r2 h2
    simp only [readCSVReads] at hres
    injection hres with hm _
    rw [← hm] at h1 h2
    have e1 := hinv r1 h1
    have e2 := hinv r2 h2
    omega
  | cons p rest ih =>
    intro acc colDim row m hinv hneg hres
    obtain ⟨line, b⟩ := p
    simp only [readCSVReads] at hres
    by_cases hl : (trimSpace line).isEmpty = true
    · rw [if_pos hl] at hres
      injection hres with hm _
      intro r1 h1 r2 h2
      rw [← hm] at h1 h2
      have e1 := hinv r1 h1
      have e2 := hinv r2 h2
      omega
    · rw [if_neg hl] at hres
      cases hp : parseCSVTokens defv (splitGo delim (trimSpace line)) with
      | error e => rw [hp] at hres; simp at hres
      | ok vec =>
        rw [hp] at hres
        dsimp only at hres
        by_cases hcd : colDim = -1
        · rw [if_pos hcd] at hres
          refine ih _ _ _ _ ?_ ?_ hres
          · intro r hr
            rw [hneg hcd] at hr
            simp at hr
            simp [hr]
          · intro hh
            omega
        · rw [if_neg hcd] at hres
          by_cases h2 : colDim ≠ (vec.length : Int)
          · rw [if_pos h2] at hres; simp at hres
          · rw [if_neg h2] at hres
            push_neg at h2
            refine ih _ _ _ _ ?_ ?_ hres
            · intro r hr
              rcases List.mem_append.1 hr with hr | hr
              · exact hinv r hr
              · simp at hr
                simp [hr, h2]
            · intro hh
              exact absurd hh hcd

lemma readCSVReads_skip (delim : GoStr) (defv : GoF) (d : Nat) :
    ∀ (good : List GoStr) (reads : List (GoStr × Bool)) (acc : List Vector) (row : Nat),
      (∀ l ∈ good, (trimSpace l).isEmpty = false ∧ csvWidth delim defv l = some d) →
      ∃ acc', readCSVReads delim defv (good.map (fun l => (l, false)) ++ reads) acc (d : Int) row
        = readCSVReads delim defv reads acc' (d : Int) (row + good.length) := by
  intro good
  induction good with
  | nil => intro reads acc row _; exact ⟨acc, by simp⟩
  | cons l rest ih =>
    intro reads acc row h
    obtain ⟨hl, hw⟩ := h l (by simp)
    have hok : ∃ v, parseCSVTokens defv (splitGo delim (trimSpace l)) = .ok v ∧ v.length = d := by
      cases hp : parseCSVTokens defv (splitGo delim (trimSpace l)) with
      | error e => simp [csvWidth, hp] at hw
      | ok v => simp [csvWidth, hp] at hw; exact ⟨v, rfl, hw⟩
    obtain ⟨v, hp, hvd⟩ := hok
    simp only [List.map_cons, List.cons_append, readCSVReads]
    rw [hl]
    simp only [Bool.false_eq_true, if_false]
    rw [hp]
    dsimp only
    rw [if_neg (by omega : ¬ ((d : Int) = -1))]
    rw [hvd, if_neg (by omega : ¬ ((d : Int) ≠ (d : Int)))]
    obtain ⟨acc', hacc⟩ := ih reads (acc ++ [v]) (row + 1) (fun l hl => h l (by simp [hl]))
    refine ⟨acc', ?_⟩
    have hfix : row + 1 + rest.length = row + (l :: rest).length := by simp; omega
    rw [← hfix]
    exact hacc

/-- C1: every Matrix returned successfully by ReadCSVFileToDenseMatrix has
uniform row width; and whenever a prefix of rows parses with width d and the
next row parses with a different width w, the read fails with an error
carrying exactly that row's index and its actual width w (rows are stored
exactly as parsed, never truncated or padded). -/
theorem c1_csv_uniform_width :
    (∀ (f : GoFile) (delim : GoStr) (defv : GoF) (m : Matrix),
       ReadCSVFileToDenseMatrix f delim defv = (m, none) →
       ∀ r1 ∈ m.Vectors, ∀ r2 ∈ m.Vectors, r1.length = r2.length)
    ∧ (∀ (delim : GoStr) (defv : GoF) (good : List GoStr) (bad : GoStr) (more : List GoStr)
         (tl : GoStr) (d w : Nat),
       good ≠ [] →
       (∀ l ∈ good, (trimSpace l).isEmpty = false ∧ csvWidth delim defv l = some d) →
       (trimSpace bad).isEmpty = false →
       csvWidth delim defv bad = some w →
       w ≠ d →
       ReadCSVFileToDenseMatrix ⟨good ++ bad :: more, tl⟩ delim defv
         = (⟨[]⟩, some (.dimMismatch good.length w))) := by
  constructor
  · intro f delim defv m hres
    exact readCSVReads_ok_uniform delim defv (fileReads f) [] (-1) 0 m
      (by simp) (fun _ => rfl) hres
  · intro delim defv good bad more tl d w hne hgood hbadtrim hbadw hwd
    cases good with
    | nil => exact absurd rfl hne
    | cons g grest =>
      obtain ⟨hgl, hgw⟩ := hgood g (by simp)
      have hok : ∃ v, parseCSVTokens defv (splitGo delim (trimSpace g)) = .ok v ∧ v.length = d := by
        cases hp : parseCSVTokens defv (splitGo delim (trimSpace g)) with
        | error e => simp [csvWidth, hp] at hgw
        | ok v => simp [csvWidth, hp] at hgw; exact ⟨v, rfl, hgw⟩
      obtain ⟨v, hp, hvd⟩ := hok
      have hbok : ∃ vb, parseCSVTokens defv (splitGo delim (trimSpace bad)) = .ok vb
          ∧ vb.length = w := by
        cases hp2 : parseCSVTokens defv (splitGo delim (trimSpace bad)) with
        | error e => simp [csvWidth, hp2] at hbadw
        | ok vb => simp [csvWidth, hp2] at hbadw; exact ⟨vb, rfl, hbadw⟩
      obtain ⟨vb, hbp, hvbw⟩ := hbok
      show readCSVReads delim defv _ [] (-1) 0 = _
      simp only [fileReads, List.cons_append, List.map_cons, List.map_append, List.append_assoc]
      simp only [readCSVReads]
      rw [hgl]
      simp only [Bool.false_eq_true, if_false]
      rw [hp]
      dsimp only
      simp only [if_true]
      rw [hvd]
      simp only [List.nil_append, Nat.zero_add]
      have hrest : ∀ l ∈ grest, (trimSpace l).isEmpty = false ∧ csvWidth delim defv l = some d :=
        fun l hl => hgood l (by simp [hl])
      obtain ⟨acc', hskip⟩ := readCSVReads_skip delim defv d grest
        ((bad, false) :: (more.map (fun l => (l, false)) ++ [(tl, true)])) [v] 1 hrest
      rw [hskip]
      simp only [readCSVReads]
      rw [hbadtrim]
      simp only [Bool.false_eq_true, if_false]
      rw [hbp]
      dsimp only
      rw [if_neg (by omega : ¬ ((d : Int) = -1))]
      rw [hvbw]
      rw [if_pos (by omega : ((d : Int) ≠ (w : Int)))]
      simp [List.length_cons, Nat.add_comm]

/-- Witness for C1: a successful read with uniform rows, and the spec's
example "1,2,3" then "4,5" failing with row index 1 and width 2. -/
theorem c1_csv_uniform_width_witness :
    (∀ r1 ∈ (Matrix.mk [[GoF.fin 1, GoF.fin 2]]).Vectors,
       ∀ r2 ∈ (Matrix.mk [[GoF.fin 1, GoF.fin 2]]).Vectors, r1.length = r2.length)
    ∧ ReadCSVFileToDenseMatrix ⟨[("1,2,3").toList, ("4,5").toList], []⟩ [','] (GoF.fin 0)
        = (⟨[]⟩, some (.dimMismatch 1 2)) :=
  ⟨c1_csv_uniform_width.1 ⟨[("1,2").toList], []⟩ [','] (GoF.fin 0)
     (Matrix.mk [[GoF.fin 1, GoF.fin 2]]) (by with_unfolding_all decide),
   c1_csv_uniform_width.2 [','] (GoF.fin 0) [("1,2,3").toList] (("4,5").toList) [] [] 3 2
     (by decide) (by with_unfolding_all decide) (by decide)
     (by with_unfolding_all decide) (by decide)⟩

end XgMat
